import Mathlib

/-!
Verification of the retrieval fusion and reranking pipeline of a RAG layer
over a document database.

The development shallowly embeds the pipeline:
* `RagService.mergeWithRRF` — Reciprocal Rank Fusion of two candidate lists
  (an insertion-order map of accumulator scores, followed by a stable
  descending sort on the fused score, matching the stable JS array sort);
* `RagService.rerankTextWithVoyage` / `RagService.rerankImageWithJina` —
  application of a rerank gateway's `{index, relevance_score}` response to a
  candidate list, with pass-through on an empty gateway response;
* `RagService.applyRerank` — the strategy decision table over query type and
  configuration flags (the returned `Strategy` tag makes the chosen branch
  observable; the candidate-list component is exactly the source behaviour);
* `RagService.retrieveByFullText`, `RagService.askImage`,
  `RagService.askHybrid` — orchestrator entry points, with the database
  engine, embedding provider, rerank providers, object store and LLM
  modelled as explicit collaborator parameters/oracles;
* `VoyageAIService` / `JinaRerankService` gateway calls with their
  rate-limit retry policies; the HTTP provider is an oracle mapping the
  attempt number to a response, and each call returns the list of cooldown
  waits it performed alongside its result.

Numeric scores are modelled as exact rationals (`ℚ`); JS numbers are IEEE
doubles, so rational arithmetic is the usual idealisation of the score
algebra. Buffers are modelled as lists of bytes, and the base64/data-URL
serialisation done by the Node `Buffer` library is abstracted: an image
payload carries its MIME type and raw bytes.
-/

/-- A candidate document flowing through the pipeline, as projected by the
retrieval stages (`$project`: title, description, coverImage, score).
`_id` is the string form of the document identity (`doc._id?.toString()`);
`none` models an absent `_id`. -/
structure Doc where
  _id : Option String
  title : String
  description : String
  coverImage : String
  score : ℚ
deriving DecidableEq, Repr

/-- The JS document produced by spreading `undefined` (out-of-range
candidate access `chunks[r.index]`): no `_id`, empty fields. -/
def undefinedDoc : Doc := ⟨none, "", "", "", 0⟩

/-- The JS blank-query test `!query?.trim()`: true exactly when the string
trims to the empty string, i.e. every character is whitespace. Stated over
the character list so that it is computable by kernel reduction. -/
def jsBlank (s : String) : Bool := s.data.all Char.isWhitespace

/-- `doc._id?.toString()` followed by the falsy test `if (!id) return;` of
`mergeWithRRF`: an absent `_id` or an empty string form counts as no id. -/
def idOf (d : Doc) : Option String :=
  match d._id with
  | none => none
  | some s => if s = "" then none else some s

/-- One entry of a rerank gateway response. -/
structure RerankResult where
  index : Nat
  relevance_score : ℚ
deriving DecidableEq, Repr

/-- Default used only to state indexed equalities (`List.getD`). -/
def dfltRR : RerankResult := ⟨0, 0⟩

namespace RagService

/-- Default RRF constant (`const RRF_K = 60`). -/
def RRF_K : ℚ := 60

/-- `scores.set(id, (scores.get(id) ?? 0) + rrf)` together with
`byId.get(id).score = scores.get(id)` for an id already in the maps: the
first entry with this key gets `rrf` added to its accumulated score; its
representation fields are untouched. -/
def bump (id : String) (rrf : ℚ) : List (String × Doc) → List (String × Doc)
  | [] => []
  | (i, e) :: rest =>
      if i = id then (i, { e with score := e.score + rrf }) :: rest
      else (i, e) :: bump id rrf rest

/-- `byId.has(id)`. -/
def hasKey : List (String × Doc) → String → Bool
  | [], _ => false
  | (i, _) :: rest, id => if i = id then true else hasKey rest id

/-- The `add(doc, rank)` closure of `mergeWithRRF`: skip documents without a
usable id; otherwise add `1 / (k + rank + 1)` to the id's accumulated score,
inserting `{ ...doc, score: rrf }` on first encounter (a JS `Map` preserves
insertion order, modelled by appending). -/
def addDoc (k : ℚ) (rank : Nat) (st : List (String × Doc)) (d : Doc) :
    List (String × Doc) :=
  match idOf d with
  | none => st
  | some id =>
      let rrf : ℚ := 1 / (k + (rank : ℚ) + 1)
      if hasKey st id then bump id rrf st
      else st ++ [(id, { d with score := rrf })]

/-- `list.forEach((doc, i) => add(doc, i))`, with `rank` the index of the
next document. -/
def addListFrom (k : ℚ) : Nat → List (String × Doc) → List Doc →
    List (String × Doc)
  | _, st, [] => st
  | rank, st, d :: rest => addListFrom k (rank + 1) (addDoc k rank st d) rest

/-- The accumulator state after both `forEach` passes of `mergeWithRRF`. -/
def fuseState (listA listB : List Doc) (k : ℚ) : List (String × Doc) :=
  addListFrom k 0 (addListFrom k 0 [] listA) listB

/-- The sort order of `mergeWithRRF`'s comparator
`(a, b) => (b.score ?? 0) - (a.score ?? 0)`: `a` may come before `b` iff the
comparator is ≤ 0, i.e. descending by score. -/
def scoreGE (a b : Doc) : Prop := b.score ≤ a.score

instance : DecidableRel scoreGE := fun a b =>
  inferInstanceAs (Decidable (b.score ≤ a.score))

instance : IsTotal Doc scoreGE := ⟨fun a b => le_total b.score a.score⟩

instance : IsTrans Doc scoreGE := ⟨fun _ _ _ h1 h2 => le_trans h2 h1⟩

/-- `RagService.mergeWithRRF(listA, listB, k = RRF_K)`: accumulate RRF
contributions over both lists, then sort the deduplicated values descending
by fused score. `Array.prototype.sort` is stable (ES2019), which a stable
insertion sort models exactly. -/
def mergeWithRRF (listA listB : List Doc) (k : ℚ := RRF_K) : List Doc :=
  List.insertionSort scoreGE ((fuseState listA listB k).map Prod.snd)

end RagService

/-- Modelled from the spec: the RRF score formula of §4.3 — the document at
first position `r` (0-indexed rank, scanning from `rank`) with this id
contributes `1 / (k + r + 1)`; a list without the id contributes `0`. Used
to compare the source's accumulator against the specified formula. -/
def specContribution (k : ℚ) : Nat → List Doc → String → ℚ
  | _, [], _ => 0
  | rank, d :: rest, id =>
      if idOf d = some id then 1 / (k + (rank : ℚ) + 1)
      else specContribution k (rank + 1) rest id

/-- The total RRF contribution of a list to an id as the source accumulates
it: one summand per occurrence of the id. -/
def rrfContrib (k : ℚ) : Nat → List Doc → String → ℚ
  | _, [], _ => 0
  | rank, d :: rest, id =>
      (if idOf d = some id then 1 / (k + (rank : ℚ) + 1) else 0) +
        rrfContrib k (rank + 1) rest id

/-- The accumulated score of an id in the fusion state (`scores.get(id) ?? 0`
restricted to the first entry with that key). -/
def stateScore : List (String × Doc) → String → ℚ
  | [], _ => 0
  | (i, e) :: rest, id => if i = id then e.score else stateScore rest id

/-- First document of a list carrying the given id (the "first occurrence
encountered" of the deduplication policy). -/
def findFirst : List Doc → String → Option Doc
  | [], _ => none
  | d :: rest, id => if idOf d = some id then some d else findFirst rest id

/-- A document payload sent to the Jina multimodal reranker: either a cover
image (MIME type and raw bytes; the base64 data-URL serialisation is
abstracted) or the text fallback. -/
inductive JinaDoc where
  | image (mime : String) (bytes : List Nat)
  | text (s : String)
deriving DecidableEq, Repr

/-- Query type tag of `applyRerank`'s `options.queryType`. -/
inductive QueryType where
  | text
  | image
  | hybrid
deriving DecidableEq, Repr

/-- The rerank branch `applyRerank` selects (added observability: the list
component of the result is exactly the source's return value). -/
inductive Strategy where
  | passthrough
  | textRerank
  | imageRerank
deriving DecidableEq, Repr

/-- Collaborator calls an orchestrator entry point can make after the query
embedding has been obtained (used to trace what `askImage` touches). -/
inductive CallTag where
  | embedImage
  | vectorSearch
  | rerankGateway
  | llm
deriving DecidableEq, Repr

/-- The wired collaborators and configuration of a `RagService` instance.
A rerank gateway is `some f` when the corresponding service object exists
and its `rerank` member is a function (`typeof srv?.rerank === 'function'`);
each gateway function takes the query, the built documents and the
`top_k`/`top_n` value and yields the awaited response. The store maps a URL
to `some bytes` on success and `none` when the fetch fails or throws. The
LLM yields `response?.content`. -/
structure RagDeps where
  voyageRerankFn : Option (String → List String → Nat → List RerankResult)
  jinaRerankFn : Option (String → List JinaDoc → Nat → List RerankResult)
  store : Option (String → Option (List Nat))
  useRerank : Bool
  useRerankImage : Bool
  llm : String → List Doc → Option String

/-- Public context-chunk shape returned past the service boundary. -/
structure ContextChunk where
  title : String
  description : String
  coverImage : String
  score : ℚ
deriving DecidableEq, Repr

/-- `{ answer, contextChunks }` returned by the ask entry points. -/
structure AnswerRec where
  answer : String
  contextChunks : List ContextChunk
deriving DecidableEq, Repr

namespace RagService

/-- `RagService.mimeFromUrl`: extension-based MIME lookup, defaulting to
`image/jpeg`. -/
def mimeFromUrl (url : String) : String :=
  let ext := ((url.splitOn ".").getLastD "").toLower
  if ext = "png" then "image/png"
  else if ext = "webp" then "image/webp"
  else if ext = "gif" then "image/gif"
  else if ext = "jpg" then "image/jpeg"
  else if ext = "jpeg" then "image/jpeg"
  else "image/jpeg"

/-- Document string built for the Voyage text reranker:
`[c.title, c.description].filter(Boolean).join(' ').trim() || ' '`. -/
def docText (c : Doc) : String :=
  let joined := String.intercalate " "
    ([c.title, c.description].filter (fun s => s ≠ ""))
  let t := joined.trim
  if t = "" then " " else t

/-- `RagService.rerankTextWithVoyage(query, chunks, k)` with the gateway
response modelled by `vgw` applied to the actual call arguments
(`top_k = Math.min(k, chunks.length)`). An empty response returns the
original candidates; otherwise `results.map(r => ({ ...chunks[r.index],
score: r.relevance_score }))`, where an out-of-range index spreads the JS
`undefined` (modelled by `undefinedDoc`). -/
def rerankTextWithVoyage
    (vgw : String → List String → Nat → List RerankResult)
    (query : String) (chunks : List Doc) (k : Nat) : List Doc :=
  let documents := chunks.map docText
  let results := vgw query documents (min k chunks.length)
  if results.isEmpty then chunks
  else results.map (fun r =>
    { chunks.getD r.index undefinedDoc with score := r.relevance_score })

/-- The per-candidate Jina document of `rerankImageWithJina`: fetch the
cover image from the store when a cover URL and a store are present and the
fetched buffer is non-empty; otherwise (no cover, no store, fetch error or
empty buffer) fall back to the text document. -/
def jinaDocOf (store : Option (String → Option (List Nat))) (c : Doc) :
    JinaDoc :=
  match store with
  | some readFromUrl =>
      if c.coverImage = "" then .text (docText c)
      else
        match readFromUrl c.coverImage with
        | some buffer =>
            if buffer.isEmpty then .text (docText c)
            else .image (mimeFromUrl c.coverImage) buffer
        | none => .text (docText c)
  | none => .text (docText c)

/-- `RagService.rerankImageWithJina(query, chunks, k)` with the gateway
response modelled by `jgw` applied to the actual call arguments
(`top_n = Math.min(k, chunks.length)`). -/
def rerankImageWithJina
    (jgw : String → List JinaDoc → Nat → List RerankResult)
    (store : Option (String → Option (List Nat)))
    (query : String) (chunks : List Doc) (k : Nat) : List Doc :=
  let documents := chunks.map (jinaDocOf store)
  let results := jgw query documents (min k chunks.length)
  if results.isEmpty then chunks
  else results.map (fun r =>
    { chunks.getD r.index undefinedDoc with score := r.relevance_score })

/-- `RagService.applyRerank(query, chunks, k, { queryType, hasUserQuestion })`
paired with the branch it selected. Branch structure of the source: empty
candidate lists pass through; image queries use Jina when
`useRerankImage` and a Jina gateway are available, fall back to Voyage when
the user supplied a question and `useRerank` and a Voyage gateway are
available, and otherwise pass through; text/hybrid queries use Voyage when
`useRerank` and a Voyage gateway are available and pass through otherwise. -/
def applyRerankT (deps : RagDeps) (query : String) (chunks : List Doc)
    (k : Nat) (queryType : QueryType) (hasUserQuestion : Bool) :
    Strategy × List Doc :=
  if chunks.isEmpty then (.passthrough, chunks)
  else
    match queryType with
    | .image =>
        match deps.useRerankImage, deps.jinaRerankFn with
        | true, some jgw =>
            (.imageRerank, rerankImageWithJina jgw deps.store query chunks k)
        | _, _ =>
            match hasUserQuestion, deps.useRerank, deps.voyageRerankFn with
            | true, true, some vgw =>
                (.textRerank, rerankTextWithVoyage vgw query chunks k)
            | _, _, _ => (.passthrough, chunks)
    | _ =>
        match deps.useRerank, deps.voyageRerankFn with
        | true, some vgw =>
            (.textRerank, rerankTextWithVoyage vgw query chunks k)
        | _, _ => (.passthrough, chunks)

/-- The candidate list `applyRerank` resolves to. -/
def applyRerank (deps : RagDeps) (query : String) (chunks : List Doc)
    (k : Nat) (queryType : QueryType) (hasUserQuestion : Bool) : List Doc :=
  (applyRerankT deps query chunks k queryType hasUserQuestion).2

/-- `RagService.answerWithChunks(question, chunks)`: invoke the LLM and
package `response?.content ?? ''` with the public fields of the chunks. -/
def answerWithChunks (llm : String → List Doc → Option String)
    (question : String) (chunks : List Doc) : AnswerRec :=
  ⟨(llm question chunks).getD "",
   chunks.map (fun c => ⟨c.title, c.description, c.coverImage, c.score⟩)⟩

/-- `RagService.retrieveByFullText(question, options)`. The collaborating
search engine is the oracle `searchOracle`: `.ok docs` is the ranked match
list of the `$search` stage (then truncated by the pipeline's `$limit: k`
stage; `$project` shaping is already reflected in `Doc`), `.error` models
the aggregation throwing (e.g. no such index). A falsy configured index
name or a blank question short-circuits to `[]`; a thrown error is caught,
logged and replaced by `[]`, so the call itself never fails. -/
def retrieveByFullText (searchIndexName : Option String)
    (searchOracle : Except String (List Doc)) (question : String)
    (k? : Option Nat) : Except String (List Doc) :=
  let k := k?.getD 5
  if searchIndexName.getD "" = "" ∨ jsBlank question then .ok []
  else
    match searchOracle with
    | .ok docs => .ok (docs.take k)
    | .error _ => .ok []

/-- `RagService.askImage(imageBuffer, mimeType, options)` with the awaited
collaborator outcomes as parameters: `embedResult` is what
`srvVoyage.getImageEmbedding` resolved to, `vecSearch k` what
`retrieveRelevantChunks({embedding, k, type: 'image'})` would return. The
second component traces which collaborators the entry point touched. -/
def askImageT (deps : RagDeps) (embedResult : Option (List ℚ))
    (vecSearch : Nat → List Doc) (question? : Option String)
    (k? : Option Nat) : AnswerRec × List CallTag :=
  let k := k?.getD 5
  let hasUserQuestion :=
    match question? with
    | some q => !(jsBlank q)
    | none => false
  let question := question?.getD "What films are relevant to this image?"
  match embedResult with
  | none =>
      (⟨"Could not generate an embedding from the image.", []⟩,
       [CallTag.embedImage])
  | some [] =>
      (⟨"Could not generate an embedding from the image.", []⟩,
       [CallTag.embedImage])
  | some (_ :: _) =>
      let chunks := vecSearch k
      let sr := applyRerankT deps question chunks k .image hasUserQuestion
      (answerWithChunks deps.llm question sr.2,
       [CallTag.embedImage, CallTag.vectorSearch] ++
         (if sr.1 = Strategy.passthrough then [] else [CallTag.rerankGateway])
         ++ [CallTag.llm])

/-- `RagService.askHybrid(question, options)` with the awaited collaborator
outcomes as parameters: `vecSearch k` is the text-modality vector search
result and `fullTextDocs` the resolved lexical result. When the lexical
list is non-empty the two lists are fused with RRF and truncated to `k`;
otherwise the vector list is used as-is. The chosen list then flows through
`applyRerank` (queryType text) and `answerWithChunks`. -/
def askHybrid (deps : RagDeps) (vecSearch : Nat → List Doc)
    (fullTextDocs : List Doc) (question : String) (k? : Option Nat) :
    AnswerRec :=
  let k := k?.getD 5
  let vectorDocs := vecSearch k
  let chunks :=
    if fullTextDocs.isEmpty then vectorDocs
    else (mergeWithRRF vectorDocs fullTextDocs RRF_K).take k
  answerWithChunks deps.llm question
    (applyRerank deps question chunks k .text false)

end RagService

/-- An HTTP provider response: success payload, a 429 rate-limit response
(carrying the response body text), or another non-OK status with its body. -/
inductive ProviderResp (α : Type) where
  | ok (data : α)
  | rateLimited (body : String)
  | otherError (status : Nat) (body : String)

namespace VoyageAIService

/-- `VoyageAIService.getEmbedding` recursion, with the provider as an oracle
from the attempt number to its response and the remaining retries mirroring
the `retried` flag (`1` for a fresh call, `0` once retried). Returns the
result and the list of cooldown waits performed (65000 ms per retry). -/
def getEmbeddingGo (p : Nat → ProviderResp (List (List ℚ))) :
    Nat → Nat → Except String (List (List ℚ)) × List Nat
  | attempt, retries + 1 =>
      match p attempt with
      | .ok data => (.ok data, [])
      | .rateLimited _ =>
          let r := getEmbeddingGo p (attempt + 1) retries
          (r.1, 65000 :: r.2)
      | .otherError s b =>
          (.error ("VoyageAI error: " ++ toString s ++ " - " ++ b), [])
  | attempt, 0 =>
      match p attempt with
      | .ok data => (.ok data, [])
      | .rateLimited b => (.error ("VoyageAI error: 429 - " ++ b), [])
      | .otherError s b =>
          (.error ("VoyageAI error: " ++ toString s ++ " - " ++ b), [])

/-- `VoyageAIService.getEmbedding`: one retry budget; a 429 waits the fixed
cooldown and retries once; a second failure throws (`.error`). -/
def getEmbedding (p : Nat → ProviderResp (List (List ℚ))) :
    Except String (List (List ℚ)) × List Nat :=
  getEmbeddingGo p 0 1

/-- `VoyageAIService.getImageEmbedding` recursion. The provider's `.ok`
payload is `result.data?.[0]?.embedding` after the `Array.isArray` check
(`none` when the response carried no vector). Non-OK non-retryable
responses and thrown errors resolve to `null`, never to a failure. -/
def getImageEmbeddingGo (p : Nat → ProviderResp (Option (List ℚ))) :
    Nat → Nat → Option (List ℚ) × List Nat
  | attempt, retries + 1 =>
      match p attempt with
      | .ok emb => (emb, [])
      | .rateLimited _ =>
          let r := getImageEmbeddingGo p (attempt + 1) retries
          (r.1, 65000 :: r.2)
      | .otherError _ _ => (none, [])
  | attempt, 0 =>
      match p attempt with
      | .ok emb => (emb, [])
      | .rateLimited _ => (none, [])
      | .otherError _ _ => (none, [])

/-- `VoyageAIService.getImageEmbedding(imageBuffer, mimeType)`: a missing or
non-Buffer argument yields `null` immediately; otherwise one retry budget,
with every terminal failure mapped to `null`. -/
def getImageEmbedding (p : Nat → ProviderResp (Option (List ℚ)))
    (imageBuffer : Option (List Nat)) : Option (List ℚ) × List Nat :=
  match imageBuffer with
  | none => (none, [])
  | some _ => getImageEmbeddingGo p 0 1

/-- `VoyageAIService.rerank(query, documents, options)`: a blank query or an
empty document list short-circuits to `[]`; otherwise a single request is
made (no retry logic in this method) and ANY non-OK response — including a
429 rate limit — is logged and replaced by `[]`. The `.ok` payload models
`(result.data ?? []).map(r => ({index, relevance_score: r.relevance_score
?? 0}))`. -/
def rerank (resp : ProviderResp (List RerankResult)) (query : String)
    (documents : List String) (top_k? : Option Nat) :
    List RerankResult × List Nat :=
  if jsBlank query ∨ documents.isEmpty then ([], [])
  else
    match resp with
    | .ok data => (data, [])
    | .rateLimited _ => ([], [])
    | .otherError _ _ => ([], [])

end VoyageAIService

namespace JinaRerankService

/-- `JinaRerankService.rerank` recursion: a 429 waits the fixed cooldown and
retries once; a second 429 (or any other non-OK response) is logged and
replaced by `[]`. -/
def rerankGo (p : Nat → ProviderResp (List RerankResult)) :
    Nat → Nat → List RerankResult × List Nat
  | attempt, retries + 1 =>
      match p attempt with
      | .ok data => (data, [])
      | .rateLimited _ =>
          let r := rerankGo p (attempt + 1) retries
          (r.1, 65000 :: r.2)
      | .otherError _ _ => ([], [])
  | attempt, 0 =>
      match p attempt with
      | .ok data => (data, [])
      | .rateLimited _ => ([], [])
      | .otherError _ _ => ([], [])

/-- `JinaRerankService.rerank(query, documents, options)`: blank query or no
documents short-circuits to `[]`; otherwise one retry budget with `[]` as
the terminal fallback. -/
def rerank (p : Nat → ProviderResp (List RerankResult)) (query : String)
    (documents : List JinaDoc) (top_n? : Option Nat) :
    List RerankResult × List Nat :=
  if jsBlank query ∨ documents.isEmpty then ([], [])
  else rerankGo p 0 1

end JinaRerankService

/-- Invariant tying the accumulator state of `mergeWithRRF` to the prefix of
documents already folded in: keys are distinct; every entry's stored
document carries its key as id; the key set is exactly the set of usable
ids seen so far; and every entry is the first-encountered document of its
id with only the score rewritten. -/
def StateInv (processed : List Doc) (st : List (String × Doc)) : Prop :=
  (st.map Prod.fst).Nodup ∧
  (∀ p ∈ st, idOf p.2 = some p.1) ∧
  (∀ s : String, s ∈ st.map Prod.fst ↔ s ∈ processed.filterMap idOf) ∧
  (∀ p ∈ st, ∃ orig, findFirst processed p.1 = some orig ∧
    p.2 = { orig with score := p.2.score })

/-- Number of occurrences of a usable id in a candidate list (used to state
that a retrieval result lists each document at most once, which is what
makes "the rank of a document in a list" well defined). -/
def countId (id : String) : List Doc → Nat
  | [] => 0
  | d :: rest => (if idOf d = some id then 1 else 0) + countId id rest

/-- Stub LLM collaborator: resolves with no content. -/
def stubLLM : String → List Doc → Option String := fun _ _ => none

/-- A gateway stub that always returns an empty response. -/
def emptyGw : String → List String → Nat → List RerankResult := fun _ _ _ => []

/-- A Jina gateway stub that always returns an empty response. -/
def emptyJGw : String → List JinaDoc → Nat → List RerankResult := fun _ _ _ => []

/-- Gateway stub of §8's rerank-reordering scenario:
`[{index:2, relevance_score:0.9}, {index:0, relevance_score:0.5}]`. -/
def exGw4 : String → List String → Nat → List RerankResult :=
  fun _ _ _ => [⟨2, 9/10⟩, ⟨0, 1/2⟩]

/-- Concrete candidates `candidates[0..2]` of the reordering scenario. -/
def exC0 : Doc := ⟨some "c0", "t0", "d0", "", 1/10⟩

def exC1 : Doc := ⟨some "c1", "t1", "d1", "", 2/10⟩

def exC2 : Doc := ⟨some "c2", "t2", "d2", "", 3/10⟩

/-- §8 RRF dedup scenario, list A: `[{id:1},{id:2}]`. -/
def exA1 : Doc := ⟨some "1", "A1", "a1", "u1", 9/10⟩

def exA2 : Doc := ⟨some "2", "A2", "a2", "u2", 8/10⟩

/-- §8 RRF dedup scenario, list B: `[{id:2},{id:3}]`. -/
def exB2 : Doc := ⟨some "2", "B2", "b2", "v2", 5⟩

def exB3 : Doc := ⟨some "3", "B3", "b3", "v3", 4⟩

/-- §8 hybrid scenario vector stub results. -/
def hvDoc1 : Doc := ⟨some "1", "V1", "", "", 9/10⟩

def hvDoc2 : Doc := ⟨some "2", "V2", "", "", 8/10⟩

/-- §8 hybrid scenario lexical stub results. -/
def hlDoc3 : Doc := ⟨some "3", "L3", "", "", 5⟩

def hlDoc1 : Doc := ⟨some "1", "L1", "", "", 4⟩

/-- Documents without a usable identity. -/
def noIdDoc : Doc := ⟨none, "n", "n", "n", 1⟩

def emptyIdDoc : Doc := ⟨some "", "e", "e", "e", 1⟩

/-- `RagService` configuration with an available Voyage reranker but text
reranking disabled (`useRerank=false`) and no multimodal reranker. -/
def depsNoTextRerank : RagDeps := ⟨some exGw4, none, none, false, false, stubLLM⟩

/-- `RagService` configuration with text reranking enabled and available and
no multimodal reranker. -/
def depsFallback : RagDeps := ⟨some exGw4, none, none, true, false, stubLLM⟩

/-- Fully disabled configuration. -/
def stubDeps : RagDeps := ⟨none, none, none, false, false, stubLLM⟩

/-- Vector-search stub. -/
def stubVecSearch : Nat → List Doc := fun _ => [exC0]

/-- Embedding provider that is rate limited on every attempt. -/
def pEmb429 : Nat → ProviderResp (List (List ℚ)) := fun _ => .rateLimited "slow down"

/-- Embedding provider that is rate limited once, then succeeds. -/
def pEmbOnce : Nat → ProviderResp (List (List ℚ)) :=
  fun n => if n = 0 then .rateLimited "slow down" else .ok [[1]]

/-- Image-embedding provider that is rate limited on every attempt. -/
def pImg429 : Nat → ProviderResp (Option (List ℚ)) := fun _ => .rateLimited "slow down"

/-- Rerank provider that is rate limited on every attempt. -/
def pRr429 : Nat → ProviderResp (List RerankResult) := fun _ => .rateLimited "slow down"

/-- Witness documents sharing id "1" across the two fused lists. -/
def wDocA : Doc := ⟨some "1", "tA", "dA", "cA", 9/10⟩

def wDocB : Doc := ⟨some "1", "tB", "dB", "cB", 5⟩

/-- The fused document `mergeWithRRF [wDocA] [wDocB] 60` produces: the
representation of `wDocA` with the accumulated score `2/61`. -/
def wC1out : Doc := ⟨some "1", "tA", "dA", "cA", 2/61⟩

/-- Head of `mergeWithRRF [exA1, exA2] [exB2, exB3] 60`: the id-2 document,
first encountered as `exA2`, with fused score `1/62 + 1/61`. -/
def exMergeHead : Doc := ⟨some "2", "A2", "a2", "u2", 123/3782⟩

/-- The single output of `mergeWithRRF [exA1] [] 60`. -/
def mergeA1Out : Doc := ⟨some "1", "A1", "a1", "u1", 1/61⟩

open RagService

lemma idOf_setScore (d : Doc) (x : ℚ) : idOf { d with score := x } = idOf d := rfl

lemma setScore_eta (d : Doc) : ({ d with score := d.score } : Doc) = d := rfl

lemma setScore_setScore (d : Doc) (x y : ℚ) :
    ({ ({ d with score := y } : Doc) with score := x } : Doc) =
      { d with score := x } := rfl

lemma hasKey_eq_true_iff (st : List (String × Doc)) (id : String) :
    hasKey st id = true ↔ id ∈ st.map Prod.fst := by
  induction st with
  | nil => simp [hasKey]
  | cons p rest ih =>
      obtain ⟨i, e⟩ := p
      by_cases h : i = id
      · subst h; simp [hasKey]
      · simp [hasKey, h, ih, Ne.symm h]

lemma bump_map_fst (id : String) (rrf : ℚ) (st : List (String × Doc)) :
    (bump id rrf st).map Prod.fst = st.map Prod.fst := by
  induction st with
  | nil => rfl
  | cons p rest ih =>
      obtain ⟨i, e⟩ := p
      by_cases h : i = id <;> simp [bump, h, ih]

lemma mem_bump {id : String} {rrf : ℚ} {st : List (String × Doc)} :
    ∀ p ∈ bump id rrf st, ∃ q ∈ st, p.1 = q.1 ∧ ∃ x, p.2 = { q.2 with score := x } := by
  induction st with
  | nil => simp [bump]
  | cons hd rest ih =>
      obtain ⟨i, e⟩ := hd
      intro p hp
      by_cases h : i = id
      · simp only [bump, if_pos h, List.mem_cons] at hp
        rcases hp with hp | hp
        · exact ⟨(i, e), List.mem_cons_self _ _, by simp [hp],
            e.score + rrf, by simp [hp]⟩
        · exact ⟨p, List.mem_cons_of_mem _ hp, rfl, p.2.score, (setScore_eta p.2).symm⟩
      · simp only [bump, if_neg h, List.mem_cons] at hp
        rcases hp with hp | hp
        · exact ⟨(i, e), List.mem_cons_self _ _, by simp [hp],
            e.score, by simp [hp, setScore_eta]⟩
        · obtain ⟨q, hq, h1, x, h2⟩ := ih p hp
          exact ⟨q, List.mem_cons_of_mem _ hq, h1, x, h2⟩

lemma stateScore_bump_self (id : String) (rrf : ℚ) :
    ∀ st : List (String × Doc), hasKey st id = true →
      stateScore (bump id rrf st) id = stateScore st id + rrf := by
  intro st
  induction st with
  | nil => simp [hasKey]
  | cons hd rest ih =>
      obtain ⟨i, e⟩ := hd
      intro hk
      by_cases h : i = id
      · simp [bump, stateScore, h]
      · have hk' : hasKey rest id = true := by simpa [hasKey, h] using hk
        simp [bump, stateScore, h, ih hk']

lemma stateScore_bump_other (id j : String) (rrf : ℚ) (hne : id ≠ j) :
    ∀ st : List (String × Doc),
      stateScore (bump j rrf st) id = stateScore st id := by
  intro st
  induction st with
  | nil => rfl
  | cons hd rest ih =>
      obtain ⟨i, e⟩ := hd
      by_cases h : i = j
      · subst h
        have hni : ¬ (i = id) := fun hh => hne hh.symm
        simp [bump, stateScore, hni]
      · simp [bump, stateScore, h, ih]

lemma stateScore_append_other (j id : String) (e : Doc) (hne : j ≠ id)
    (st : List (String × Doc)) :
    stateScore (st ++ [(j, e)]) id = stateScore st id := by
  induction st with
  | nil => simp [stateScore, hne]
  | cons hd rest ih =>
      obtain ⟨i, e'⟩ := hd
      by_cases h : i = id <;> simp [stateScore, h, ih]

lemma stateScore_absent (id : String) :
    ∀ st : List (String × Doc), hasKey st id = false → stateScore st id = 0 := by
  intro st
  induction st with
  | nil => intro; rfl
  | cons hd rest ih =>
      obtain ⟨i, e⟩ := hd
      intro hk
      by_cases h : i = id
      · simp [hasKey, h] at hk
      · have hk' : hasKey rest id = false := by simpa [hasKey, h] using hk
        simp [stateScore, h, ih hk']

lemma stateScore_append_self (id : String) (e : Doc)
    (st : List (String × Doc)) (hk : hasKey st id = false) :
    stateScore (st ++ [(id, e)]) id = e.score := by
  induction st with
  | nil => simp [stateScore]
  | cons hd rest ih =>
      obtain ⟨i, e'⟩ := hd
      by_cases h : i = id
      · simp [hasKey, h] at hk
      · have hk' : hasKey rest id = false := by simpa [hasKey, h] using hk
        simp [stateScore, h, ih hk']

lemma stateScore_addDoc (k : ℚ) (rank : Nat) (st : List (String × Doc))
    (d : Doc) (id : String) :
    stateScore (addDoc k rank st d) id =
      stateScore st id +
        (if idOf d = some id then 1 / (k + (rank : ℚ) + 1) else 0) := by
  rcases hd : idOf d with _ | j
  · simp [addDoc, hd]
  · by_cases hij : j = id
    · subst hij
      by_cases hk : hasKey st j
      · simp [addDoc, hd, hk, stateScore_bump_self j _ st hk]
      · have hk' : hasKey st j = false := by simpa using hk
        simp [addDoc, hd, hk', stateScore_append_self j _ st hk',
          stateScore_absent j st hk']
    · have hne : id ≠ j := fun hh => hij hh.symm
      by_cases hk : hasKey st j
      · simp [addDoc, hd, hk, stateScore_bump_other id j _ hne, hij]
      · have hk' : hasKey st j = false := by simpa using hk
        simp [addDoc, hd, hk', stateScore_append_other j id _ (fun hh => hij hh),
          hij]

lemma stateScore_addListFrom (k : ℚ) :
    ∀ (l : List Doc) (rank : Nat) (st : List (String × Doc)) (id : String),
      stateScore (addListFrom k rank st l) id =
        stateScore st id + rrfContrib k rank l id := by
  intro l
  induction l with
  | nil => intro rank st id; simp [addListFrom, rrfContrib]
  | cons d rest ih =>
      intro rank st id
      have := ih (rank + 1) (addDoc k rank st d) id
      rw [addListFrom, this, stateScore_addDoc, rrfContrib]
      ring

lemma stateScore_fuseState (A B : List Doc) (k : ℚ) (id : String) :
    stateScore (fuseState A B k) id =
      rrfContrib k 0 A id + rrfContrib k 0 B id := by
  rw [fuseState, stateScore_addListFrom, stateScore_addListFrom]
  simp [stateScore]

lemma rrfContrib_eq_zero (k : ℚ) (id : String) :
    ∀ (l : List Doc) (rank : Nat), (∀ x ∈ l, idOf x ≠ some id) →
      rrfContrib k rank l id = 0 := by
  intro l
  induction l with
  | nil => intro rank _; rfl
  | cons d rest ih =>
      intro rank h
      have hd : idOf d ≠ some id := h d (List.mem_cons_self _ _)
      have hrest := ih (rank + 1) (fun x hx => h x (List.mem_cons_of_mem _ hx))
      simp [rrfContrib, hd, hrest]

lemma countId_eq_zero_iff (id : String) :
    ∀ l : List Doc, countId id l = 0 ↔ ∀ x ∈ l, idOf x ≠ some id := by
  intro l
  induction l with
  | nil => simp [countId]
  | cons d rest ih =>
      rw [countId]
      by_cases hd : idOf d = some id
      · rw [if_pos hd]
        constructor
        · intro h; exact absurd h (by omega)
        · intro h; exact absurd hd (h d (List.mem_cons_self _ _))
      · rw [if_neg hd, Nat.zero_add, ih]
        constructor
        · intro h x hx
          rcases List.mem_cons.mp hx with h1 | h1
          · subst h1; exact hd
          · exact h x h1
        · intro h x hx
          exact h x (List.mem_cons_of_mem _ hx)

lemma rrfContrib_eq_spec (k : ℚ) (id : String) :
    ∀ (l : List Doc) (rank : Nat), countId id l ≤ 1 →
      rrfContrib k rank l id = specContribution k rank l id := by
  intro l
  induction l with
  | nil => intro rank _; rfl
  | cons d rest ih =>
      intro rank hc
      rw [countId] at hc
      by_cases hd : idOf d = some id
      · rw [if_pos hd] at hc
        have h0 : countId id rest = 0 := by omega
        have hall : ∀ x ∈ rest, idOf x ≠ some id :=
          (countId_eq_zero_iff id rest).mp h0
        simp [rrfContrib, specContribution, hd,
          rrfContrib_eq_zero k id rest (rank + 1) hall]
      · rw [if_neg hd] at hc
        have hc' : countId id rest ≤ 1 := by omega
        simp [rrfContrib, specContribution, hd, ih (rank + 1) hc']

lemma findFirst_append_some {l l' : List Doc} {id : String} {x : Doc}
    (h : findFirst l id = some x) : findFirst (l ++ l') id = some x := by
  induction l with
  | nil => simp [findFirst] at h
  | cons d rest ih =>
      by_cases hd : idOf d = some id
      · simp [findFirst, hd] at h ⊢; exact h
      · simp [findFirst, hd] at h ⊢; exact ih h

lemma findFirst_append_none {l l' : List Doc} {id : String}
    (h : findFirst l id = none) : findFirst (l ++ l') id = findFirst l' id := by
  induction l with
  | nil => simp
  | cons d rest ih =>
      by_cases hd : idOf d = some id
      · simp [findFirst, hd] at h
      · simp [findFirst, hd] at h ⊢; exact ih h

lemma findFirst_eq_none (l : List Doc) (id : String)
    (h : ∀ x ∈ l, idOf x ≠ some id) : findFirst l id = none := by
  induction l with
  | nil => rfl
  | cons d rest ih =>
      have hd := h d (List.mem_cons_self _ _)
      simp [findFirst, hd]
      exact ih (fun x hx => h x (List.mem_cons_of_mem _ hx))

lemma StateInv_addDoc {processed : List Doc} {st : List (String × Doc)}
    (hinv : StateInv processed st) (k : ℚ) (rank : Nat) (d : Doc) :
    StateInv (processed ++ [d]) (addDoc k rank st d) := by
  obtain ⟨hnd, hidc, hkeys, hrepr⟩ := hinv
  rcases hdid : idOf d with _ | j
  · simp only [addDoc, hdid]
    have hfm : (processed ++ [d]).filterMap idOf = processed.filterMap idOf := by
      simp [List.filterMap_append, List.filterMap_cons, hdid]
    refine ⟨hnd, hidc, ?_, ?_⟩
    · intro s; rw [hfm]; exact hkeys s
    · intro p hp
      obtain ⟨orig, ho, he⟩ := hrepr p hp
      exact ⟨orig, findFirst_append_some ho, he⟩
  · have hfm : (processed ++ [d]).filterMap idOf =
        processed.filterMap idOf ++ [j] := by
      simp [List.filterMap_append, List.filterMap_cons, hdid]
    simp only [addDoc, hdid]
    by_cases hk : hasKey st j = true
    · rw [if_pos hk]
      refine ⟨?_, ?_, ?_, ?_⟩
      · rw [bump_map_fst]; exact hnd
      · intro p hp
        obtain ⟨q, hq, h1, x, h2⟩ := mem_bump p hp
        rw [h2, idOf_setScore, hidc q hq, h1]
      · intro s
        rw [bump_map_fst, hfm]
        constructor
        · intro hs; exact List.mem_append_left _ ((hkeys s).mp hs)
        · intro hs
          rcases List.mem_append.mp hs with hs | hs
          · exact (hkeys s).mpr hs
          · have hsj : s = j := by simpa using hs
            subst hsj
            exact (hasKey_eq_true_iff st s).mp hk
      · intro p hp
        obtain ⟨q, hq, h1, x, h2⟩ := mem_bump p hp
        obtain ⟨orig, ho, he⟩ := hrepr q hq
        have hpx : p.2 = { orig with score := x } := by
          rw [h2, he, setScore_setScore]
        refine ⟨orig, ?_, ?_⟩
        · rw [h1]; exact findFirst_append_some ho
        · rw [hpx]
    · rw [if_neg hk]
      have hk' : hasKey st j = false := by simpa using hk
      have hkj : j ∉ st.map Prod.fst := by
        intro hmem
        exact hk ((hasKey_eq_true_iff st j).mpr hmem)
      have hnone : findFirst processed j = none := by
        apply findFirst_eq_none
        intro x hx hxj
        apply hkj
        exact (hkeys j).mpr (List.mem_filterMap.mpr ⟨x, hx, hxj⟩)
      refine ⟨?_, ?_, ?_, ?_⟩
      · rw [List.map_append]
        refine List.Nodup.append hnd (List.nodup_singleton j) ?_
        intro a ha hja
        have : a = j := by simpa using hja
        subst this
        exact hkj ha
      · intro p hp
        rcases List.mem_append.mp hp with hp | hp
        · exact hidc p hp
        · have hpe : p = (j, { d with score := 1 / (k + (rank : ℚ) + 1) }) := by
            simpa using hp
          rw [hpe]
          rw [idOf_setScore]
          exact hdid
      · intro s
        rw [List.map_append, hfm]
        simp only [List.mem_append]
        constructor
        · intro hs
          rcases hs with hs | hs
          · exact Or.inl ((hkeys s).mp hs)
          · exact Or.inr (by simpa using hs)
        · intro hs
          rcases hs with hs | hs
          · exact Or.inl ((hkeys s).mpr hs)
          · exact Or.inr (by simpa using hs)
      · intro p hp
        rcases List.mem_append.mp hp with hp | hp
        · obtain ⟨orig, ho, he⟩ := hrepr p hp
          exact ⟨orig, findFirst_append_some ho, he⟩
        · have hpe : p = (j, { d with score := 1 / (k + (rank : ℚ) + 1) }) := by
            simpa using hp
          refine ⟨d, ?_, ?_⟩
          · rw [hpe]
            rw [findFirst_append_none hnone]
            simp [findFirst, hdid]
          · rw [hpe]

lemma StateInv_nil : StateInv [] [] := by
  unfold StateInv
  refine ⟨List.nodup_nil, by simp, by simp, by simp⟩

lemma StateInv_addListFrom (k : ℚ) :
    ∀ (l processed : List Doc) (st : List (String × Doc)) (rank : Nat),
      StateInv processed st →
      StateInv (processed ++ l) (addListFrom k rank st l) := by
  intro l
  induction l with
  | nil => intro processed st rank h; simpa [addListFrom] using h
  | cons d rest ih =>
      intro processed st rank h
      have h2 := ih (processed ++ [d]) (addDoc k rank st d) (rank + 1)
        (StateInv_addDoc h k rank d)
      rw [addListFrom]
      simpa [List.append_assoc] using h2

lemma StateInv_fuseState (A B : List Doc) (k : ℚ) :
    StateInv (A ++ B) (fuseState A B k) := by
  have h1 := StateInv_addListFrom k A [] [] 0 StateInv_nil
  rw [List.nil_append] at h1
  exact StateInv_addListFrom k B A _ 0 h1

lemma entry_score :
    ∀ st : List (String × Doc), (st.map Prod.fst).Nodup →
      ∀ p ∈ st, p.2.score = stateScore st p.1 := by
  intro st
  induction st with
  | nil => simp
  | cons hd rest ih =>
      obtain ⟨i, e⟩ := hd
      intro hnd p hp
      rw [List.map_cons] at hnd
      have hnd' := List.nodup_cons.mp hnd
      rcases List.mem_cons.mp hp with h | h
      · rw [h]; simp [stateScore]
      · have hne : ¬ (i = p.1) := by
          intro hh
          apply hnd'.1
          rw [hh]
          exact List.mem_map.mpr ⟨p, h, rfl⟩
        rw [stateScore, if_neg hne]
        exact ih hnd'.2 p h

lemma mem_mergeWithRRF_iff (A B : List Doc) (k : ℚ) (d : Doc) :
    d ∈ mergeWithRRF A B k ↔ d ∈ (fuseState A B k).map Prod.snd :=
  (List.perm_insertionSort scoreGE _).mem_iff

lemma mergeWithRRF_score (A B : List Doc) (k : ℚ) :
    ∀ d ∈ mergeWithRRF A B k, ∀ id, idOf d = some id →
      d.score = rrfContrib k 0 A id + rrfContrib k 0 B id := by
  intro d hd id hid
  obtain ⟨p, hp, hpd⟩ :=
    List.mem_map.mp ((mem_mergeWithRRF_iff A B k d).mp hd)
  obtain ⟨hnd, hidc, -, -⟩ := StateInv_fuseState A B k
  have hkey : p.1 = id := by
    have h1 : idOf p.2 = some p.1 := hidc p hp
    rw [hpd, hid] at h1
    exact (Option.some.inj h1).symm
  have hscore := entry_score _ hnd p hp
  rw [hpd, hkey, stateScore_fuseState] at hscore
  exact hscore

lemma sorted_mergeWithRRF (A B : List Doc) (k : ℚ) :
    List.Sorted scoreGE (mergeWithRRF A B k) :=
  List.sorted_insertionSort scoreGE _

lemma filter_orderedInsert (q : ℚ) (x : Doc) :
    ∀ l : List Doc,
      (List.orderedInsert scoreGE x l).filter (fun d => decide (d.score = q)) =
        if x.score = q
        then x :: l.filter (fun d => decide (d.score = q))
        else l.filter (fun d => decide (d.score = q)) := by
  intro l
  induction l with
  | nil =>
      by_cases hx : x.score = q <;>
        simp [List.orderedInsert, List.filter, hx]
  | cons y l ih =>
      by_cases hxy : scoreGE x y
      · by_cases hx : x.score = q <;>
          simp [List.orderedInsert, if_pos hxy, List.filter, hx]
      · have hlt : x.score < y.score := by
          simpa [scoreGE, not_le] using hxy
        by_cases hx : x.score = q
        · have hy : ¬ (y.score = q) := by
            intro hh
            rw [hx, hh] at hlt
            exact lt_irrefl q hlt
          simp [List.orderedInsert, if_neg hxy, List.filter, hx, hy, ih]
        · by_cases hy : y.score = q <;>
            simp [List.orderedInsert, if_neg hxy, List.filter, hx, hy, ih]

lemma filter_insertionSort (q : ℚ) :
    ∀ l : List Doc,
      (List.insertionSort scoreGE l).filter (fun d => decide (d.score = q)) =
        l.filter (fun d => decide (d.score = q)) := by
  intro l
  induction l with
  | nil => rfl
  | cons x l ih =>
      rw [List.insertionSort, filter_orderedInsert, ih]
      by_cases hx : x.score = q <;> simp [List.filter, hx]

lemma filterMap_idOf_map_snd :
    ∀ st : List (String × Doc), (∀ p ∈ st, idOf p.2 = some p.1) →
      (st.map Prod.snd).filterMap idOf = st.map Prod.fst := by
  intro st
  induction st with
  | nil => simp
  | cons p rest ih =>
      intro h
      have hp := h p (List.mem_cons_self _ _)
      simp [List.filterMap_cons, hp,
        ih (fun q hq => h q (List.mem_cons_of_mem _ hq))]

lemma mergeWithRRF_ids_perm (A B : List Doc) (k : ℚ) :
    List.Perm ((mergeWithRRF A B k).filterMap idOf)
      ((fuseState A B k).map Prod.fst) := by
  obtain ⟨-, hidc, -, -⟩ := StateInv_fuseState A B k
  have hperm := (List.perm_insertionSort scoreGE
    ((fuseState A B k).map Prod.snd)).filterMap idOf
  rwa [filterMap_idOf_map_snd _ hidc] at hperm

lemma mergeWithRRF_ids_nodup (A B : List Doc) (k : ℚ) :
    ((mergeWithRRF A B k).filterMap idOf).Nodup := by
  obtain ⟨hnd, -, -, -⟩ := StateInv_fuseState A B k
  exact (mergeWithRRF_ids_perm A B k).nodup_iff.mpr hnd

lemma mergeWithRRF_ids_mem (A B : List Doc) (k : ℚ) (s : String) :
    s ∈ (mergeWithRRF A B k).filterMap idOf ↔ s ∈ (A ++ B).filterMap idOf := by
  obtain ⟨-, -, hkeys, -⟩ := StateInv_fuseState A B k
  rw [(mergeWithRRF_ids_perm A B k).mem_iff]
  exact hkeys s

lemma mergeWithRRF_repr (A B : List Doc) (k : ℚ) :
    ∀ d ∈ mergeWithRRF A B k, ∃ id orig, idOf d = some id ∧
      findFirst (A ++ B) id = some orig ∧
      d = { orig with score := d.score } := by
  intro d hd
  obtain ⟨p, hp, hpd⟩ :=
    List.mem_map.mp ((mem_mergeWithRRF_iff A B k d).mp hd)
  obtain ⟨-, hidc, -, hrepr⟩ := StateInv_fuseState A B k
  obtain ⟨orig, ho, he⟩ := hrepr p hp
  refine ⟨p.1, orig, ?_, ho, ?_⟩
  · rw [← hpd]; exact hidc p hp
  · rw [← hpd]; exact he

lemma countId_singleton_le (id : String) (d : Doc) : countId id [d] ≤ 1 := by
  rw [countId, countId]
  split <;> omega

/-- C1: for every pair of candidate lists (each listing a given document id
at most once, which is what makes "its rank in that list" well defined) and
every RRF constant, each fused document's accumulated score equals the sum,
over the lists in which its id appears, of `1 / (k_const + r + 1)` with `r`
its 0-indexed rank there (`specContribution` contributes `0` for a list not
containing the id). In particular a document at rank 0 in exactly one list
gets `1/(k_const+1)` and a document at rank 0 in both lists gets
`2/(k_const+1)`, these being the rank-0 instances of the formula. -/
theorem claim_C1_rrf_score_formula (listA listB : List Doc) (kc : ℚ)
    (hA : ∀ id, countId id listA ≤ 1) (hB : ∀ id, countId id listB ≤ 1) :
    ∀ d ∈ mergeWithRRF listA listB kc, ∀ id, idOf d = some id →
      d.score = specContribution kc 0 listA id + specContribution kc 0 listB id := by
  intro d hd id hid
  rw [mergeWithRRF_score listA listB kc d hd id hid,
    rrfContrib_eq_spec kc id listA 0 (hA id),
    rrfContrib_eq_spec kc id listB 0 (hB id)]

/-- C1 witness: the hypotheses hold for the singleton lists `[wDocA]` and
`[wDocB]`, and the fused document (score `2/61`, rank 0 in both lists with
`k_const = 60`) satisfies the formula. -/
theorem claim_C1_rrf_score_formula_witness :
    (∀ id, countId id [wDocA] ≤ 1) ∧ (∀ id, countId id [wDocB] ≤ 1) ∧
    wC1out.score =
      specContribution 60 0 [wDocA] "1" + specContribution 60 0 [wDocB] "1" :=
  ⟨fun id => countId_singleton_le id wDocA,
   fun id => countId_singleton_le id wDocB,
   claim_C1_rrf_score_formula [wDocA] [wDocB] 60
     (fun id => countId_singleton_le id wDocA)
     (fun id => countId_singleton_le id wDocB)
     wC1out
     (by norm_num [mergeWithRRF, fuseState, addListFrom, addDoc, idOf, hasKey,
       bump, List.insertionSort, List.orderedInsert, scoreGE, wDocA, wDocB,
       wC1out])
     "1" rfl⟩

/-- C2: `mergeWithRRF` deduplicates by document identity, keeps the
representation of the first occurrence encountered while overwriting the
score with the fused (accumulated) value, and returns the merged list
sorted descending by fused score with ties broken by input encounter order:
the output is weakly sorted under `scoreGE`; output ids are distinct; for
each score value, the output documents carrying it appear exactly in
first-encounter order (the order of the accumulator state `fuseState`,
which appends ids on first encounter); every output document is its id's
first occurrence in `listA ++ listB` with only the score replaced, the
score being the accumulated fused value; and fusing `A=[{id:1},{id:2}]`
with `B=[{id:2},{id:3}]` yields exactly the ids `[2, 1, 3]` — 3 documents,
id 2 ranked first. -/
theorem claim_C2_rrf_dedup_sort :
    (∀ (A B : List Doc) (kc : ℚ),
      List.Sorted scoreGE (mergeWithRRF A B kc) ∧
      ((mergeWithRRF A B kc).filterMap idOf).Nodup ∧
      (∀ q : ℚ, (mergeWithRRF A B kc).filter (fun d => decide (d.score = q)) =
        ((fuseState A B kc).map Prod.snd).filter (fun d => decide (d.score = q))) ∧
      (∀ d ∈ mergeWithRRF A B kc, ∃ id orig, idOf d = some id ∧
        findFirst (A ++ B) id = some orig ∧
        d = { orig with score := d.score } ∧
        d.score = rrfContrib kc 0 A id + rrfContrib kc 0 B id)) ∧
    (mergeWithRRF [exA1, exA2] [exB2, exB3] 60).map idOf =
      [some "2", some "1", some "3"] := by
  constructor
  · intro A B kc
    refine ⟨sorted_mergeWithRRF A B kc, mergeWithRRF_ids_nodup A B kc,
      ?_, ?_⟩
    · intro q
      rw [mergeWithRRF]
      exact filter_insertionSort q _
    · intro d hd
      obtain ⟨id, orig, h1, h2, h3⟩ := mergeWithRRF_repr A B kc d hd
      exact ⟨id, orig, h1, h2, h3, mergeWithRRF_score A B kc d hd id h1⟩
  · norm_num [mergeWithRRF, fuseState, addListFrom, addDoc, idOf, hasKey,
      bump, List.insertionSort, List.orderedInsert, scoreGE,
      exA1, exA2, exB2, exB3]
    decide

/-- C2 witness: the first-occurrence/fused-score description instantiated at
the head document of the §8 dedup example. -/
theorem claim_C2_rrf_dedup_sort_witness :
    ∃ id orig, idOf exMergeHead = some id ∧
      findFirst ([exA1, exA2] ++ [exB2, exB3]) id = some orig ∧
      exMergeHead = { orig with score := exMergeHead.score } ∧
      exMergeHead.score =
        rrfContrib 60 0 [exA1, exA2] id + rrfContrib 60 0 [exB2, exB3] id :=
  (claim_C2_rrf_dedup_sort.1 [exA1, exA2] [exB2, exB3] 60).2.2.2 exMergeHead
    (by norm_num [mergeWithRRF, fuseState, addListFrom, addDoc, idOf, hasKey,
      bump, List.insertionSort, List.orderedInsert, scoreGE,
      exA1, exA2, exB2, exB3, exMergeHead])

/-- C10: documents whose `_id` is absent or has an empty string form are
silently excluded from `mergeWithRRF`'s output: every output document has a
usable id, output ids are distinct, and the output ids are exactly the
usable ids occurring in the inputs; two id-less documents fuse to the empty
list, their contributions never accumulated. -/
theorem claim_C10_idless_excluded :
    (∀ (A B : List Doc) (kc : ℚ),
      (∀ d ∈ mergeWithRRF A B kc, ∃ s, idOf d = some s) ∧
      ((mergeWithRRF A B kc).filterMap idOf).Nodup ∧
      (∀ s : String, s ∈ (mergeWithRRF A B kc).filterMap idOf ↔
        s ∈ (A ++ B).filterMap idOf)) ∧
    mergeWithRRF [noIdDoc, emptyIdDoc] [] 60 = [] := by
  constructor
  · intro A B kc
    refine ⟨?_, mergeWithRRF_ids_nodup A B kc, mergeWithRRF_ids_mem A B kc⟩
    intro d hd
    obtain ⟨p, hp, hpd⟩ :=
      List.mem_map.mp ((mem_mergeWithRRF_iff A B kc d).mp hd)
    obtain ⟨-, hidc, -, -⟩ := StateInv_fuseState A B kc
    exact ⟨p.1, hpd ▸ hidc p hp⟩
  · rfl

/-- C10 witness: the usable-id property instantiated at the single output of
fusing `[exA1]` with the empty list. -/
theorem claim_C10_idless_excluded_witness : ∃ s, idOf mergeA1Out = some s :=
  (claim_C10_idless_excluded.1 [exA1] [] 60).1 mergeA1Out
    (by norm_num [mergeWithRRF, fuseState, addListFrom, addDoc, idOf, hasKey,
      bump, List.insertionSort, List.orderedInsert, scoreGE, exA1, mergeA1Out])

lemma getD_map_of_lt {α β : Type} (f : α → β) :
    ∀ (l : List α) (i : Nat), i < l.length → ∀ (d₁ : β) (d₂ : α),
      (l.map f).getD i d₁ = f (l.getD i d₂) := by
  intro l
  induction l with
  | nil => intro i h; simp at h
  | cons a l ih =>
      intro i h d₁ d₂
      cases i with
      | zero => simp [List.getD]
      | succ n =>
          rw [List.map_cons, List.getD_cons_succ, List.getD_cons_succ]
          exact ih n (by simpa using Nat.lt_of_succ_lt_succ h) d₁ d₂

/-- C3: for a non-empty candidate list, when the rerank gateway resolves to
zero results (provider failure or error), both the Voyage text
cross-encoder path and the Jina multimodal path return the original
candidate list unchanged — same length, same order — never an empty list. -/
theorem claim_C3_rerank_never_empties
    (vgw : String → List String → Nat → List RerankResult)
    (jgw : String → List JinaDoc → Nat → List RerankResult)
    (store : Option (String → Option (List Nat)))
    (query : String) (chunks : List Doc) (k : Nat)
    (hne : chunks ≠ []) :
    (vgw query (chunks.map docText) (min k chunks.length) = [] →
      rerankTextWithVoyage vgw query chunks k = chunks) ∧
    (jgw query (chunks.map (jinaDocOf store)) (min k chunks.length) = [] →
      rerankImageWithJina jgw store query chunks k = chunks) := by
  constructor
  · intro h
    simp [rerankTextWithVoyage, h]
  · intro h
    simp [rerankImageWithJina, h]

/-- C3 witness: a singleton candidate list with gateways stubbed to return
`[]` passes through unchanged on both paths. -/
theorem claim_C3_rerank_never_empties_witness :
    ([exC0] ≠ ([] : List Doc)) ∧
    rerankTextWithVoyage emptyGw "q" [exC0] 3 = [exC0] ∧
    rerankImageWithJina emptyJGw none "q" [exC0] 3 = [exC0] :=
  ⟨List.cons_ne_nil _ _,
   (claim_C3_rerank_never_empties emptyGw emptyJGw none "q" [exC0] 3
     (List.cons_ne_nil _ _)).1 rfl,
   (claim_C3_rerank_never_empties emptyGw emptyJGw none "q" [exC0] 3
     (List.cons_ne_nil _ _)).2 rfl⟩

/-- C4: the text rerank path calls the gateway with
`top_k = min(k, chunks.length)` (visible as the argument of every gateway
application below); for a non-empty response with in-range indices, the
output has one entry per response row, and its `i`-th element is the
original candidate at position `results[i].index` with only `score`
replaced by `results[i].relevance_score` (all identity fields unchanged,
since the whole record is reused). -/
theorem claim_C4_rerank_reordering
    (vgw : String → List String → Nat → List RerankResult)
    (query : String) (chunks : List Doc) (k : Nat)
    (hne : vgw query (chunks.map docText) (min k chunks.length) ≠ [])
    (hval : ∀ r ∈ vgw query (chunks.map docText) (min k chunks.length),
      r.index < chunks.length) :
    (rerankTextWithVoyage vgw query chunks k).length =
      (vgw query (chunks.map docText) (min k chunks.length)).length ∧
    ∀ i, i < (vgw query (chunks.map docText) (min k chunks.length)).length →
      (rerankTextWithVoyage vgw query chunks k).getD i undefinedDoc =
        { chunks.getD
            ((vgw query (chunks.map docText)
              (min k chunks.length)).getD i dfltRR).index undefinedDoc
          with score :=
            ((vgw query (chunks.map docText)
              (min k chunks.length)).getD i dfltRR).relevance_score } := by
  have hfalse :
      (vgw query (chunks.map docText) (min k chunks.length)).isEmpty = false := by
    cases hv : vgw query (chunks.map docText) (min k chunks.length) with
    | nil => exact absurd hv hne
    | cons a l => rfl
  have hres : rerankTextWithVoyage vgw query chunks k =
      (vgw query (chunks.map docText) (min k chunks.length)).map
        (fun r =>
          { chunks.getD r.index undefinedDoc with score := r.relevance_score }) := by
    simp [rerankTextWithVoyage, hfalse]
  constructor
  · rw [hres, List.length_map]
  · intro i hi
    rw [hres]
    exact getD_map_of_lt _ _ i hi undefinedDoc dfltRR

/-- C4 witness: 3 candidates and a gateway stub returning
`[{index:2, relevance_score:0.9}, {index:0, relevance_score:0.5}]` with
`k = 2` produce exactly 2 candidates: the original `candidates[2]` with
score 0.9, then the original `candidates[0]` with score 0.5. -/
theorem claim_C4_rerank_reordering_witness :
    (rerankTextWithVoyage exGw4 "q" [exC0, exC1, exC2] 2).length = 2 ∧
    (rerankTextWithVoyage exGw4 "q" [exC0, exC1, exC2] 2).getD 0 undefinedDoc =
      { exC2 with score := 9/10 } ∧
    (rerankTextWithVoyage exGw4 "q" [exC0, exC1, exC2] 2).getD 1 undefinedDoc =
      { exC0 with score := 1/2 } := by
  have hne : exGw4 "q" ([exC0, exC1, exC2].map docText)
      (min 2 [exC0, exC1, exC2].length) ≠ [] := by simp [exGw4]
  have hval : ∀ r ∈ exGw4 "q" ([exC0, exC1, exC2].map docText)
      (min 2 [exC0, exC1, exC2].length), r.index < [exC0, exC1, exC2].length := by
    intro r hr
    simp only [exGw4, List.mem_cons, List.not_mem_nil, or_false] at hr
    rcases hr with h | h <;> simp [h]
  have h := claim_C4_rerank_reordering exGw4 "q" [exC0, exC1, exC2] 2 hne hval
  refine ⟨?_, ?_, ?_⟩
  · exact h.1.trans (by rfl)
  · exact (h.2 0 (by simp [exGw4])).trans (by rfl)
  · exact (h.2 1 (by simp [exGw4])).trans (by rfl)

/-- C7: `retrieveByFullText` resolves to `[]` when no lexical index is
configured and when the underlying query fails for any reason; it never
propagates an error (the result is always `.ok`); and a successful query
returns at most `k` results (`options.k ?? 5`). -/
theorem claim_C7_lexical_degrade (searchIndexName : Option String)
    (searchOracle : Except String (List Doc)) (question : String)
    (k? : Option Nat) :
    (searchIndexName.getD "" = "" →
      retrieveByFullText searchIndexName searchOracle question k? = .ok []) ∧
    (∀ e, searchOracle = .error e →
      retrieveByFullText searchIndexName searchOracle question k? = .ok []) ∧
    (∃ l, retrieveByFullText searchIndexName searchOracle question k? = .ok l ∧
      l.length ≤ k?.getD 5) := by
  refine ⟨?_, ?_, ?_⟩
  · intro h
    simp [retrieveByFullText, h]
  · intro e he
    rw [retrieveByFullText.eq_def]
    by_cases hc : searchIndexName.getD "" = "" ∨ jsBlank question
    · rw [if_pos hc]
    · rw [if_neg hc, he]
  · rw [retrieveByFullText.eq_def]
    by_cases hc : searchIndexName.getD "" = "" ∨ jsBlank question
    · exact ⟨[], by rw [if_pos hc], by simp⟩
    · rw [if_neg hc]
      cases searchOracle with
      | ok docs =>
          exact ⟨docs.take (k?.getD 5), rfl, by simp⟩
      | error e => exact ⟨[], rfl, by simp⟩

/-- C7 witness: a throwing lexical query resolves to `.ok []` (the error is
not propagated), instantiated with a configured index and a failing oracle. -/
theorem claim_C7_lexical_degrade_witness :
    retrieveByFullText (some "films_search") (.error "no such index") "q" none =
      .ok [] ∧
    ∃ l, retrieveByFullText (some "films_search") (.error "no such index") "q"
      none = .ok l ∧ l.length ≤ 5 :=
  ⟨(claim_C7_lexical_degrade (some "films_search") (.error "no such index")
      "q" none).2.1 "no such index" rfl,
   (claim_C7_lexical_degrade (some "films_search") (.error "no such index")
      "q" none).2.2⟩

/-- C5 counterexample: with `queryType=image`, no multimodal reranker
enabled, an explicit user question, a non-empty candidate list, and an
available Voyage reranker — but `useRerank=false` — the orchestrator does
NOT fall back to the text cross-encoder path as the claim states: it passes
the candidates through unchanged without calling any gateway. -/
theorem claim_C5_counterexample :
    (applyRerankT depsNoTextRerank "q" [exC0] 5 .image true).1 =
      Strategy.passthrough ∧
    Strategy.passthrough ≠ Strategy.textRerank ∧
    applyRerank depsNoTextRerank "q" [exC0] 5 .image true = [exC0] :=
  ⟨rfl, by decide, rfl⟩

/-- C5 amended: for `queryType=image` with a non-empty candidate list and no
multimodal reranker enabled, the orchestrator falls back to the text
cross-encoder path using the caller-supplied text query only when the
caller supplied an explicit text question AND text reranking is enabled
AND a Voyage rerank gateway is available; otherwise — no explicit question,
or `useRerank` disabled, or no Voyage gateway — it passes the candidate
list through unchanged without calling any rerank gateway. -/
theorem claim_C5_image_fallback_amended (deps : RagDeps) (query : String)
    (chunks : List Doc) (k : Nat) (hasQ : Bool)
    (hchunks : chunks ≠ [])
    (hnomm : deps.useRerankImage = false ∨ deps.jinaRerankFn = none) :
    (∀ vgw, hasQ = true → deps.useRerank = true →
      deps.voyageRerankFn = some vgw →
      applyRerankT deps query chunks k .image hasQ =
        (.textRerank, rerankTextWithVoyage vgw query chunks k)) ∧
    (hasQ = false →
      applyRerankT deps query chunks k .image hasQ = (.passthrough, chunks)) ∧
    (deps.useRerank = false →
      applyRerankT deps query chunks k .image hasQ = (.passthrough, chunks)) ∧
    (deps.voyageRerankFn = none →
      applyRerankT deps query chunks k .image hasQ = (.passthrough, chunks)) := by
  have hie : chunks.isEmpty = false := by
    cases chunks with
    | nil => exact absurd rfl hchunks
    | cons a l => rfl
  obtain ⟨vfn, jfn, store, ur, uri, llm⟩ := deps
  dsimp only at hnomm ⊢
  refine ⟨?_, ?_, ?_, ?_⟩
  · intro vgw h1 h2 h3
    subst h1; subst h2; subst h3
    rcases hnomm with hmm | hmm
    · subst hmm; simp [applyRerankT, hie]
    · subst hmm; cases uri <;> simp [applyRerankT, hie]
  · intro h0
    subst h0
    rcases hnomm with hmm | hmm
    · subst hmm; cases jfn <;> simp [applyRerankT, hie]
    · subst hmm; cases uri <;> simp [applyRerankT, hie]
  · intro h0
    subst h0
    rcases hnomm with hmm | hmm
    · subst hmm; cases hasQ <;> simp [applyRerankT, hie]
    · subst hmm; cases uri <;> cases hasQ <;> simp [applyRerankT, hie]
  · intro h0
    subst h0
    rcases hnomm with hmm | hmm
    · subst hmm; cases hasQ <;> cases ur <;> simp [applyRerankT, hie]
    · subst hmm; cases uri <;> cases hasQ <;> cases ur <;>
        simp [applyRerankT, hie]

/-- C5 amended witness: with text reranking enabled and available
(`depsFallback`), an explicit question falls back to the text path, and no
question passes through. -/
theorem claim_C5_image_fallback_amended_witness :
    applyRerankT depsFallback "q" [exC0] 5 .image true =
      (Strategy.textRerank, rerankTextWithVoyage exGw4 "q" [exC0] 5) ∧
    applyRerankT depsFallback "q" [exC0] 5 .image false =
      (Strategy.passthrough, [exC0]) :=
  ⟨(claim_C5_image_fallback_amended depsFallback "q" [exC0] 5 true
      (List.cons_ne_nil _ _) (Or.inl rfl)).1 exGw4 rfl rfl rfl,
   (claim_C5_image_fallback_amended depsFallback "q" [exC0] 5 false
      (List.cons_ne_nil _ _) (Or.inl rfl)).2.1 rfl⟩

/-- C6: the hybrid orchestrator fuses the vector list with the lexical list
using RRF and truncates to `k` exactly when the lexical search returned at
least one result, and uses the vector-only list as-is (for the subsequent
rerank and answer-assembly steps) when the lexical search returned no
results; in the §8 scenario (vector `[{id:1},{id:2}]`, lexical
`[{id:3},{id:1}]`, `k=2`) the fused and truncated list has exactly 2
elements with id 1 first. -/
theorem claim_C6_hybrid_fusion :
    (∀ (deps : RagDeps) (vecSearch : Nat → List Doc) (fullTextDocs : List Doc)
      (question : String) (k? : Option Nat),
      (fullTextDocs ≠ [] →
        askHybrid deps vecSearch fullTextDocs question k? =
          answerWithChunks deps.llm question
            (applyRerank deps question
              ((mergeWithRRF (vecSearch (k?.getD 5)) fullTextDocs RRF_K).take
                (k?.getD 5))
              (k?.getD 5) .text false)) ∧
      (fullTextDocs = [] →
        askHybrid deps vecSearch fullTextDocs question k? =
          answerWithChunks deps.llm question
            (applyRerank deps question (vecSearch (k?.getD 5)) (k?.getD 5)
              .text false))) ∧
    ((mergeWithRRF [hvDoc1, hvDoc2] [hlDoc3, hlDoc1] RRF_K).take 2).length = 2 ∧
    (((mergeWithRRF [hvDoc1, hvDoc2] [hlDoc3, hlDoc1] RRF_K).take 2).getD 0
      undefinedDoc)._id = some "1" := by
  refine ⟨?_, ?_, ?_⟩
  · intro deps vecSearch ftd question k?
    constructor
    · intro h
      have hie : ftd.isEmpty = false := by
        cases ftd with
        | nil => exact absurd rfl h
        | cons a l => rfl
      simp [askHybrid, hie]
    · intro h
      subst h
      simp [askHybrid]
  · norm_num [mergeWithRRF, RRF_K, fuseState, addListFrom, addDoc, idOf,
      hasKey, bump, List.insertionSort, List.orderedInsert, scoreGE,
      hvDoc1, hvDoc2, hlDoc3, hlDoc1]
  · norm_num [mergeWithRRF, RRF_K, fuseState, addListFrom, addDoc, idOf,
      hasKey, bump, List.insertionSort, List.orderedInsert, scoreGE,
      hvDoc1, hvDoc2, hlDoc3, hlDoc1, List.getD]

/-- C6 witness: the two fusion branches instantiated with concrete stubs —
a non-empty lexical list forces the fused-and-truncated pipeline, an empty
one forces the vector-only pipeline. -/
theorem claim_C6_hybrid_fusion_witness :
    askHybrid stubDeps stubVecSearch [hlDoc3] "q" (some 2) =
      answerWithChunks stubDeps.llm "q"
        (applyRerank stubDeps "q"
          ((mergeWithRRF (stubVecSearch 2) [hlDoc3] RRF_K).take 2) 2
          .text false) ∧
    askHybrid stubDeps stubVecSearch [] "q" (some 2) =
      answerWithChunks stubDeps.llm "q"
        (applyRerank stubDeps "q" (stubVecSearch 2) 2 .text false) :=
  ⟨(claim_C6_hybrid_fusion.1 stubDeps stubVecSearch [hlDoc3] "q" (some 2)).1
     (List.cons_ne_nil _ _),
   (claim_C6_hybrid_fusion.1 stubDeps stubVecSearch [] "q" (some 2)).2 rfl⟩

/-- C8 counterexample: a rate-limited Voyage rerank call performs no
cooldown wait and no retry, and resolves to the silent fallback `[]`
rather than propagating an error — against the claim that every gateway
call (rerank calls included) waits a fixed cooldown, retries once, and
propagates a second rate-limit failure. -/
theorem claim_C8_counterexample :
    VoyageAIService.rerank (.rateLimited "slow down") "q" ["doc"] (some 1) =
      ([], []) ∧
    (VoyageAIService.rerank (.rateLimited "slow down") "q" ["doc"]
      (some 1)).2 ≠ [65000] := by
  have h : VoyageAIService.rerank (.rateLimited "slow down") "q" ["doc"]
      (some 1) = ([], []) := by
    rw [VoyageAIService.rerank.eq_def]
    split
    · rfl
    · rfl
  exact ⟨h, by rw [h]; decide⟩

/-- C8 amended: rate-limit handling differs per gateway call. Text embedding
calls wait the fixed 65s cooldown and retry exactly once, and a second
rate-limit failure propagates as an error; a rate-limited-then-successful
call returns the success after one cooldown. Image embedding calls retry
once the same way, but a second rate-limit failure yields the silent
fallback `null`, not an error. Jina rerank calls retry once, but a second
rate-limit failure yields the silent fallback `[]`. Voyage rerank calls
never wait and never retry: a rate-limited response immediately yields
`[]`. -/
theorem claim_C8_rate_limit_amended :
    (∀ (p : Nat → ProviderResp (List (List ℚ))) (b1 b2 : String),
      p 0 = .rateLimited b1 → p 1 = .rateLimited b2 →
      VoyageAIService.getEmbedding p =
        (.error ("VoyageAI error: 429 - " ++ b2), [65000])) ∧
    (∀ (p : Nat → ProviderResp (List (List ℚ))) (b1 : String)
      (d : List (List ℚ)), p 0 = .rateLimited b1 → p 1 = .ok d →
      VoyageAIService.getEmbedding p = (.ok d, [65000])) ∧
    (∀ (p : Nat → ProviderResp (Option (List ℚ))) (b1 b2 : String)
      (buf : List Nat), p 0 = .rateLimited b1 → p 1 = .rateLimited b2 →
      VoyageAIService.getImageEmbedding p (some buf) = (none, [65000])) ∧
    (∀ (b q : String) (docs : List String) (tk : Option Nat),
      VoyageAIService.rerank (.rateLimited b) q docs tk = ([], [])) ∧
    (∀ (p : Nat → ProviderResp (List RerankResult)) (b1 b2 q : String)
      (docs : List JinaDoc) (tn : Option Nat), jsBlank q = false → docs ≠ [] →
      p 0 = .rateLimited b1 → p 1 = .rateLimited b2 →
      JinaRerankService.rerank p q docs tn = ([], [65000])) := by
  refine ⟨?_, ?_, ?_, ?_, ?_⟩
  · intro p b1 b2 h0 h1
    simp [VoyageAIService.getEmbedding, VoyageAIService.getEmbeddingGo, h0, h1]
  · intro p b1 d h0 h1
    simp [VoyageAIService.getEmbedding, VoyageAIService.getEmbeddingGo, h0, h1]
  · intro p b1 b2 buf h0 h1
    simp [VoyageAIService.getImageEmbedding,
      VoyageAIService.getImageEmbeddingGo, h0, h1]
  · intro b q docs tk
    rw [VoyageAIService.rerank.eq_def]
    split
    · rfl
    · rfl
  · intro p b1 b2 q docs tn hq hd h0 h1
    rw [JinaRerankService.rerank.eq_def]
    rw [if_neg (by simp [hq, hd])]
    simp [JinaRerankService.rerankGo, h0, h1]

/-- C8 amended witness: each branch instantiated with a concrete provider —
an always-rate-limited embedding provider propagates an error after one
65s wait; a rate-limited-then-ok provider succeeds after one wait; image
embedding and Jina rerank fall back silently after one wait; the Voyage
rerank call returns `[]` with no wait at all. -/
theorem claim_C8_rate_limit_amended_witness :
    VoyageAIService.getEmbedding pEmb429 =
      (.error ("VoyageAI error: 429 - " ++ "slow down"), [65000]) ∧
    VoyageAIService.getEmbedding pEmbOnce = (.ok [[1]], [65000]) ∧
    VoyageAIService.getImageEmbedding pImg429 (some [0]) = (none, [65000]) ∧
    VoyageAIService.rerank (.rateLimited "slow down") "q" ["d"] none =
      ([], []) ∧
    JinaRerankService.rerank pRr429 "q" [JinaDoc.text "d"] none =
      ([], [65000]) :=
  ⟨claim_C8_rate_limit_amended.1 pEmb429 "slow down" "slow down" rfl rfl,
   claim_C8_rate_limit_amended.2.1 pEmbOnce "slow down" [[1]] rfl rfl,
   claim_C8_rate_limit_amended.2.2.1 pImg429 "slow down" "slow down" [0]
     rfl rfl,
   claim_C8_rate_limit_amended.2.2.2.1 "slow down" "q" ["d"] none,
   claim_C8_rate_limit_amended.2.2.2.2 pRr429 "slow down" "slow down" "q"
     [JinaDoc.text "d"] none (by decide) (by decide) rfl rfl⟩

/-- C9: when the image embedding fails (the gateway resolved to `null` or an
empty vector), `askImage` short-circuits with the fixed could-not-embed
answer and an empty context set, touching no other collaborator: no vector
retrieval, no rerank gateway call, no LLM call. -/
theorem claim_C9_image_embed_shortcircuit (deps : RagDeps)
    (embedResult : Option (List ℚ)) (vecSearch : Nat → List Doc)
    (question? : Option String) (k? : Option Nat)
    (hfail : embedResult = none ∨ embedResult = some []) :
    askImageT deps embedResult vecSearch question? k? =
      (⟨"Could not generate an embedding from the image.", []⟩,
        [CallTag.embedImage]) ∧
    CallTag.vectorSearch ∉ (askImageT deps embedResult vecSearch question? k?).2 ∧
    CallTag.rerankGateway ∉ (askImageT deps embedResult vecSearch question? k?).2 ∧
    CallTag.llm ∉ (askImageT deps embedResult vecSearch question? k?).2 := by
  have heq : askImageT deps embedResult vecSearch question? k? =
      (⟨"Could not generate an embedding from the image.", []⟩,
        [CallTag.embedImage]) := by
    rcases hfail with h | h <;> subst h <;> rfl
  refine ⟨heq, ?_, ?_, ?_⟩ <;> rw [heq] <;> decide

/-- C9 witness: a `null` embedding with concrete stubs short-circuits to the
fixed answer, the empty context set, and a trace without retrieval, rerank
or LLM calls. -/
theorem claim_C9_image_embed_shortcircuit_witness :
    askImageT stubDeps none stubVecSearch (some "what is this?") none =
      (⟨"Could not generate an embedding from the image.", []⟩,
        [CallTag.embedImage]) :=
  (claim_C9_image_embed_shortcircuit stubDeps none stubVecSearch
    (some "what is this?") none (Or.inl rfl)).1
